import Mathlib

/-!
Verification of the CanvasComponents build script (`scripts/build.js`).

The script is a one-shot asset compiler: it discovers component HTML files,
parses each into sections (config / style / script / main), validates and
minifies them, serializes all components into one lookup structure keyed by
name, splices that structure into a template script, minifies the result and
emits three artifacts (a bookmarklet URI, an HTML snippet embedding it, and
the minified script).

Shallow-embedding conventions:
* Third-party libraries are oracles bundled in `BuildEnv`:
  `YAML.parse`, `CleanCSS#minify`, `uglify-js minify`, `html-minifier minify`.
  `YAML.parse` is modelled as total (no claim concerns YAML failure); its
  result `Metadata` carries the `name` field (accessed as `item.name`) and
  the full ordered field list (used by `JSON.stringify`).  Metadata values
  are modelled as strings and are assumed distinct from the keys
  `style`/`script`/`html` that the component record appends.
* `HTML.parse` plus the four `querySelector` calls are modelled by
  `ParsedFile`: each field is the `innerHTML` of the selected element, or
  `none` when the selector matches nothing (in which case the JS code
  dereferences `null`, modelled by `BuildError.nullField`, except for the
  `style`/`script` selectors which use `?.` and `?? ""`).
* Exceptions are modelled with `Except BuildError`; each throw site gets its
  own constructor so that distinct errors cannot be confused.
* The JS regexes `/([\w-]+):[^;\n]+;?/g` and `/class="(.*)transition(.*)"/g`
  and the functions `encodeURI`, `String.prototype.replace` (with its `$`
  substitution patterns) and `JSON.stringify` are embedded concretely below,
  following ECMA-262 semantics (for `.` we exclude the four LineTerminator
  code points LF, CR, U+2028 and U+2029; `\w` is ASCII, as in JS).
* File-system paths are elided: the glob callback is modelled as a function
  from the discovered files to the list of `(filename, contents)` pairs
  written into `dist/`.
* `Promise.all(files.map(processComponent))` runs the components in parallel
  and rejects with a first rejection; we model the deterministic outcome:
  the first (in list order) failing component provides the error.
-/

/-- Lowercasing as performed by `String.prototype.toLowerCase` (modelled for
the ASCII range via `Char.toLower`). -/
def jsToLowerCase (s : String) : String :=
  String.mk (s.data.map Char.toLower)

/-- Uppercase hexadecimal digit, used by `encodeURI` percent escapes. -/
def hexDigitUpper (n : Nat) : Char :=
  if n < 10 then Char.ofNat (48 + n) else Char.ofNat (55 + n)

/-- Lowercase hexadecimal digit, used by `JSON.stringify` unicode escapes. -/
def hexDigitLower (n : Nat) : Char :=
  if n < 10 then Char.ofNat (48 + n) else Char.ofNat (87 + n)

/-- UTF-8 encoding of one code point, as the byte values `encodeURI`
percent-encodes. -/
def utf8Bytes (c : Char) : List Nat :=
  let n := c.toNat
  if n < 0x80 then [n]
  else if n < 0x800 then [0xC0 + n / 0x40, 0x80 + n % 0x40]
  else if n < 0x10000 then
    [0xE0 + n / 0x1000, 0x80 + (n / 0x40) % 0x40, 0x80 + n % 0x40]
  else
    [0xF0 + n / 0x40000, 0x80 + (n / 0x1000) % 0x40,
     0x80 + (n / 0x40) % 0x40, 0x80 + n % 0x40]

/-- Percent escape of one byte, e.g. `123 ↦ %7B`. -/
def percentEncode (b : Nat) : List Char :=
  ['%', hexDigitUpper (b / 16), hexDigitUpper (b % 16)]

/-- Characters `encodeURI` leaves unescaped (ECMA-262: `uriReserved`,
`uriUnescaped` and `#`).  `Char.ofNat 39` is the apostrophe. -/
def uriKeepChars : List Char :=
  ['-', '_', '.', '!', '~', '*', Char.ofNat 39, '(', ')',
   ';', '/', '?', ':', '@', '&', '=', '+', '$', ',', '#']

/-- Whether `encodeURI` keeps a character verbatim. -/
def isUriUnescaped (c : Char) : Bool :=
  c.isAlphanum || uriKeepChars.contains c

/-- The `encodeURI` encoding of one character. -/
def encodeURIChar (c : Char) : List Char :=
  if isUriUnescaped c then [c] else (utf8Bytes c).flatMap percentEncode

/-- The ECMAScript `encodeURI` builtin. -/
def encodeURI (s : String) : String :=
  String.mk (s.data.flatMap encodeURIChar)

/-- Function `createBookmarklet` from `scripts/build.js`: wrap the minified script in
an IIFE behind a `javascript:` scheme and URI-encode it. -/
def createBookmarklet (js : String) : String :=
  encodeURI ("javascript:!function()\x7b" ++ js ++ "\x7d()")

/-- JSON string escaping of one character, as in `JSON.stringify`. -/
def jsonEscapeChar (c : Char) : List Char :=
  if c = '"' then ['\\', '"']
  else if c = '\\' then ['\\', '\\']
  else if c = '\n' then ['\\', 'n']
  else if c = '\r' then ['\\', 'r']
  else if c = '\t' then ['\\', 't']
  else if c = Char.ofNat 8 then ['\\', 'b']
  else if c = Char.ofNat 12 then ['\\', 'f']
  else if c.toNat < 32 then
    ['\\', 'u', '0', '0', hexDigitLower (c.toNat / 16), hexDigitLower (c.toNat % 16)]
  else [c]

/-- A JSON string literal for `s`. -/
def jsonString (s : String) : String :=
  "\"" ++ String.mk (s.data.flatMap jsonEscapeChar) ++ "\""

/-- The `Array.prototype.join(sep)` operation on a list of strings. -/
def joinStr (sep : String) : List String → String
  | [] => ""
  | [x] => x
  | x :: y :: rest => x ++ sep ++ joinStr sep (y :: rest)

/-- Result of YAML-parsing the `config` element of a component: the `name` field
(the value of the `name` key) plus the full ordered key/value list. -/
structure Metadata where
  name : String
  fields : List (String × String)
deriving DecidableEq

/-- A processed component: the spread config metadata plus the minified
`style`, `script` and `html` sections. -/
structure Component where
  meta : Metadata
  style : String
  script : String
  html : String
deriving DecidableEq

/-- Serialization `JSON.stringify` of the component record
`\x7b...config, style, script, html\x7d`. -/
def jsonStringify (c : Component) : String :=
  "\x7b" ++
    joinStr ","
      ((c.meta.fields ++ [("style", c.style), ("script", c.script), ("html", c.html)]).map
        (fun kv => jsonString kv.1 ++ ":" ++ jsonString kv.2)) ++
  "\x7d"

/-- One entry of the serialized components structure:
`"name-lowercased": JSON.stringify(item)`. -/
def componentEntry (c : Component) : String :=
  "\"" ++ jsToLowerCase c.meta.name ++ "\": " ++ jsonStringify c

/-- Value `serializedComponents` from `scripts/build.js`:
`components.map(item => ...).join(",")`. -/
def serializedComponents (comps : List Component) : String :=
  joinStr "," (comps.map componentEntry)

/-- Word character or dash, the `[\w-]` class of the CSS property regex
(JS `\w` is ASCII `[A-Za-z0-9_]`). -/
def isWordDash (c : Char) : Bool :=
  c.isAlphanum || c = '_' || c = '-'

/-- The `[^;\n]` class of the CSS property regex. -/
def notSemiNL (c : Char) : Bool :=
  (c != ';') && (c != '\n')

/-- Fuelled scan implementing `css.styles.matchAll(/([\w-]+):[^;\n]+;?/g)`,
returning the capture group 1 (the property name) of each match, in order.
At each position the engine needs a maximal `[\w-]+` run followed by `:`,
then at least one `[^;\n]` character, then an optional `;`; on failure it
advances one character. -/
def propScanF : Nat → List Char → List String
  | _, [] => []
  | 0, _ => []
  | fuel + 1, c :: cs =>
    if isWordDash c then
      let run := (c :: cs).takeWhile isWordDash
      let after := (c :: cs).dropWhile isWordDash
      match after with
      | ':' :: rest =>
        let val := rest.takeWhile notSemiNL
        if val.isEmpty then propScanF fuel cs
        else
          let rest2 := rest.dropWhile notSemiNL
          let rest3 := match rest2 with
            | ';' :: r => r
            | r => r
          run.asString :: propScanF fuel rest3
      | _ => propScanF fuel cs
    else propScanF fuel cs

/-- Property names matched by `cssPropsRegex` in a (minified) CSS string. -/
def cssPropNames (s : String) : List String :=
  propScanF s.data.length s.data

/-- The fixed `allowedCssProps` array from `scripts/build.js`. -/
def allowedCssProps : List String :=
  ["align-content", "align-items", "align-self", "background", "border",
   "border-radius", "clear", "clip", "color", "column-gap", "cursor",
   "direction", "display", "flex", "flex-basis", "flex-direction",
   "flex-flow", "flex-grow", "flex-shrink", "flex-wrap", "float", "font",
   "gap", "grid", "height", "justify-content", "justify-items",
   "justify-self", "left", "line-height", "list-style", "margin",
   "max-height", "max-width", "min-height", "min-width", "order",
   "overflow", "overflow-x", "overflow-y", "padding", "position",
   "place-content", "place-items", "place-self", "right", "row-gap",
   "text-align", "table-layout", "text-decoration", "text-indent", "top",
   "vertical-align", "visibility", "white-space", "width", "z-index",
   "zoom", "grid-area", "grid-auto-columns", "grid-auto-flow",
   "grid-auto-rows", "grid-column", "grid-gap", "grid-row",
   "grid-template", "grid-template-areas", "grid-template-columns",
   "grid-template-rows", "grid-column-end", "grid-column-gap",
   "grid-column-start", "grid-row-end", "grid-row-gap", "grid-row-start",
   "background-attachment", "background-color", "background-image",
   "background-position", "background-repeat", "background-position-x",
   "background-position-y", "border-bottom", "border-collapse",
   "border-color", "border-left", "border-right", "border-spacing",
   "border-style", "border-top", "border-width", "border-bottom-color",
   "border-bottom-style", "border-bottom-width", "border-left-color",
   "border-left-style", "border-left-width", "border-right-color",
   "border-right-style", "border-right-width", "border-top-color",
   "border-top-style", "border-top-width", "font-family", "font-size",
   "font-stretch", "font-style", "font-variant", "font-width",
   "list-style-image", "list-style-position", "list-style-type",
   "margin-bottom", "margin-left", "margin-right", "margin-top",
   "margin-offset", "padding-bottom", "padding-left", "padding-right",
   "padding-top"]

/-- Negation of the JS regex `.`-excluded line terminators: per ECMA-262,
`.` matches any character except the four LineTerminator code points
`\n` (LF), `\r` (CR), U+2028 (LS) and U+2029 (PS). -/
def notNL (c : Char) : Bool :=
  (c != '\n') && (c != '\r') && (c != Char.ofNat 0x2028) && (c != Char.ofNat 0x2029)

/-- The literal `class="` that anchors the transition-to-thumbnail regex. -/
def classLit : List Char :=
  "class=\"".data

/-- The literal `transition`. -/
def transitionLit : List Char :=
  "transition".data

/-- The literal `thumbnail`. -/
def thumbnailLit : List Char :=
  "thumbnail".data

/-- Indices at which `pat` occurs in `l`. -/
def occIdx (pat l : List Char) : List Nat :=
  (List.range l.length).filter (fun p => pat.isPrefixOf (l.drop p))

/-- Indices of the double-quote characters of `l`. -/
def quoteIdx (l : List Char) : List Nat :=
  (List.range l.length).filter (fun q => decide (l[q]? = some '"'))

/-- One match attempt of `/class="(.*)transition(.*)"/` at the start of `l`,
with JS backtracking semantics: the literal `class="` must be a prefix; the
rest of the match lies within the current line (`.` matches no line
terminator); the first greedy `.*` maximises the position `p` of
`transition`, then the second greedy `.*` maximises the position `q` of the
closing `"`.  Returns the replacement text
`class="${cg1}thumbnail${cg2}"` and the remainder of the input after the
match, or `none` when the regex does not match at this position. -/
def tryMatch (l : List Char) : Option (List Char × List Char) :=
  if classLit.isPrefixOf l then
    let t := (l.drop 7).takeWhile notNL
    let quotes := quoteIdx t
    match ((occIdx transitionLit t).filter (fun p => quotes.any (fun q => p + 10 ≤ q))).getLast? with
    | some p =>
      match (quotes.filter (fun q => p + 10 ≤ q)).getLast? with
      | some q =>
        some (classLit ++ t.take p ++ thumbnailLit ++ (t.drop (p + 10)).take (q - (p + 10)) ++ ['"'],
              l.drop (7 + q + 1))
      | none => none
    | none => none
  else none

/-- Fuelled left-to-right scan implementing
`replaceAll(/class="(.*)transition(.*)"/g, ...)`: at each position try the
regex; on a match emit the replacement and continue after the match,
otherwise advance one character. -/
def scanF : Nat → List Char → List Char
  | _, [] => []
  | 0, l => l
  | fuel + 1, c :: cs =>
    match tryMatch (c :: cs) with
    | some (rep, rest) => rep ++ scanF fuel rest
    | none => c :: scanF fuel cs

/-- The transition-to-thumbnail transformation on character lists. -/
def transformHtmlL (l : List Char) : List Char :=
  scanF l.length l

/-- The call `originalHtml.replaceAll(/class="(.*)transition(.*)"/g, ...)` from
`processComponent`. -/
def transformHtml (s : String) : String :=
  String.mk (transformHtmlL s.data)

/-- Replace the last occurrence of `transition` in `v` by `thumbnail`
(identity when there is none); the effect of the greedy regex on the value
of a well-behaved class attribute. -/
def replaceLastTransition (v : List Char) : List Char :=
  match (occIdx transitionLit v).getLast? with
  | some p => v.take p ++ thumbnailLit ++ v.drop (p + 10)
  | none => v

/-- ECMA-262 `GetSubstitution` for a string search (no capture groups):
interpret `$$`, `$&`, `$`-backtick and `$`-apostrophe in the replacement
text; every other character is literal.  `Char.ofNat 96` is the backtick,
`Char.ofNat 39` the apostrophe. -/
def getSubstitution (matched pre post : List Char) : List Char → List Char
  | [] => []
  | a :: r =>
    if a = '$' then
      match r with
      | [] => ['$']
      | c :: r2 =>
        if c = '$' then '$' :: getSubstitution matched pre post r2
        else if c = '&' then matched ++ getSubstitution matched pre post r2
        else if c = Char.ofNat 96 then pre ++ getSubstitution matched pre post r2
        else if c = Char.ofNat 39 then post ++ getSubstitution matched pre post r2
        else '$' :: getSubstitution matched pre post (c :: r2)
    else a :: getSubstitution matched pre post r

/-- Whether the text contains one of the two-character substitution patterns
`$$`, `$&`, `$`-backtick, `$`-apostrophe interpreted by
`String.prototype.replace`. -/
def hasSubstPattern : List Char → Bool
  | [] => false
  | [_] => false
  | a :: b :: r =>
    (a = '$' && (b = '$' || b = '&' || b = Char.ofNat 96 || b = Char.ofNat 39)) ||
      hasSubstPattern (b :: r)

/-- Split `l` around the first occurrence of `pat`: `some (pre, post)` with
`l = pre ++ pat ++ post`, or `none` when `pat` does not occur. -/
def findSplit (pat : List Char) : List Char → Option (List Char × List Char)
  | [] => if pat.isPrefixOf [] then some ([], []) else none
  | c :: cs =>
    if pat.isPrefixOf (c :: cs) then some ([], (c :: cs).drop pat.length)
    else (findSplit pat cs).map (fun pr => (c :: pr.1, pr.2))

/-- The method `String.prototype.replace(searchString, replacement)` with string
arguments: replace the first occurrence of `pat`, interpreting `$`
substitution patterns in the replacement. -/
def jsReplaceFirst (s pat rep : String) : String :=
  match findSplit pat.data s.data with
  | none => s
  | some (pre, post) =>
    String.mk (pre ++ getSubstitution pat.data pre post rep.data ++ post)

/-- The placeholder comment in the template script `canvascomponents.js`. -/
def canvasPlaceholder : String :=
  "/*$\x7bCANVAS_COMPONENTS\x7d*/"

/-- Value `fullJsStr` from `scripts/build.js`: the template with the placeholder
replaced by the serialized components structure. -/
def assembleFullJs (template serialized : String) : String :=
  jsReplaceFirst template canvasPlaceholder serialized

/-- Result of `CleanCSS#minify`: the minified text and the error list. -/
structure CssOutput where
  styles : String
  errors : List String
deriving DecidableEq

/-- Result of `uglify-js` `minify`: the minified code, and the error when
minification failed. -/
structure JsOutput where
  code : String
  error : Option String
deriving DecidableEq

/-- A component file after `HTML.parse`: the `innerHTML` of the elements
selected by `querySelector("config" | "style" | "script" | "main")`, `none`
when the selector finds no element. -/
structure ParsedFile where
  configEl : Option String
  styleEl : Option String
  scriptEl : Option String
  mainEl : Option String
deriving DecidableEq

/-- Oracles for the third-party libraries used by the build script. -/
structure BuildEnv where
  yamlParse : String → Metadata
  cssMinify : String → CssOutput
  jsMinify : String → JsOutput
  htmlMinify : String → String

/-- The throw sites of the build script. -/
inductive BuildError where
  | nullField : BuildError
  | cssProp (filename propName : String) : BuildError
  | cssError (e : String) : BuildError
  | jsError (e : String) : BuildError
  | componentError (e : BuildError) : BuildError
  | minifyError (e : String) : BuildError
deriving DecidableEq

/-- The message text of each throw site (`\x27` is the apostrophe). -/
def errorMessage : BuildError → String
  | .nullField => "TypeError: Cannot read properties of null (reading \x27innerHTML\x27)"
  | .cssProp filename propName =>
    "\n\nError in " ++ filename ++ ":\nCSS property \x27" ++ propName ++
      "\x27 is not supported by Canvas. It will be automatically stripped by their sanitizer.\n"
  | .cssError e => e
  | .jsError e => e
  | .componentError e => "Error creating components: " ++ errorMessage e
  | .minifyError e => e

/-- Function `processComponent` from `scripts/build.js`.  The stages in source order:
YAML-parse the `config` element (a missing element is a null dereference);
CSS-minify the `style` element (defaulted to `""`); reject the first CSS
declaration whose property name is not in `allowedCssProps`; throw
`css.errors[0]` when `css.errors.length > 1`; JS-minify the `script` element
(defaulted to `""`) and propagate its error; take the markup of the `main`
element (a missing element is a null dereference), rewrite `transition`
classes to `thumbnail` and HTML-minify it. -/
def processComponent (env : BuildEnv) (filename : String) (pf : ParsedFile) :
    Except BuildError Component :=
  match pf.configEl with
  | none => .error .nullField
  | some configSrc =>
    let config := env.yamlParse configSrc
    let css := env.cssMinify (pf.styleEl.getD "")
    match (cssPropNames css.styles).find? (fun p => decide (p ∉ allowedCssProps)) with
    | some propName => .error (.cssProp filename propName)
    | none =>
      match css.errors with
      | e0 :: _ :: _ => .error (.cssError e0)
      | _ =>
        let js := env.jsMinify (pf.scriptEl.getD "")
        match js.error with
        | some e => .error (.jsError e)
        | none =>
          match pf.mainEl with
          | none => .error .nullField
          | some originalHtml =>
            .ok { meta := config, style := css.styles, script := js.code,
                  html := env.htmlMinify (transformHtml originalHtml) }

/-- The call `Promise.all(files.map(processComponent))` wrapped in the
`Error creating components` handler: process every file, stopping at the
first failing component. -/
def mapProcess (env : BuildEnv) : List (String × ParsedFile) → Except BuildError (List Component)
  | [] => .ok []
  | fp :: rest =>
    match processComponent env fp.1 fp.2 with
    | .error e => .error (.componentError e)
    | .ok c =>
      match mapProcess env rest with
      | .error e => .error e
      | .ok cs => .ok (c :: cs)

/-- The `bookmarklet.html` snippet embedding the bookmarklet URI. -/
def bookmarkletHtmlFor (uri : String) : String :=
  "<a href=\"" ++ uri ++
    "\" title=\"🍇 Canvas Components\">🍇 Canvas Components</a><p>Drag the link to the left into your bookmarks bar.</p>"

/-- The glob callback of `scripts/build.js`: process all discovered
component files, serialize them, splice the result into the template,
minify, and on success write the three artifacts into `dist/` (modelled as
the returned `(filename, contents)` list). -/
def globCallback (env : BuildEnv) (template : String)
    (files : List (String × ParsedFile)) : Except BuildError (List (String × String)) :=
  match mapProcess env files with
  | .error e => .error e
  | .ok components =>
    let fullJsStr := assembleFullJs template (serializedComponents components)
    let minifiedJs := env.jsMinify fullJsStr
    match minifiedJs.error with
    | some e => .error (.minifyError e)
    | none =>
      let bookmarkletJs := createBookmarklet minifiedJs.code
      .ok [("bookmarklet", bookmarkletJs),
           ("bookmarklet.html", bookmarkletHtmlFor bookmarkletJs),
           ("canvascomponents.min.js", minifiedJs.code)]

/-- Serialization as the spec words it (claim C5, amended): one entry per
component in discovery order, separated by commas, each entry keyed by the
lowercased component name with the JSON record as value. -/
def specSerialize : List Component → String
  | [] => ""
  | [c] => "\"" ++ jsToLowerCase c.meta.name ++ "\": " ++ jsonStringify c
  | c :: c2 :: rest =>
    ("\"" ++ jsToLowerCase c.meta.name ++ "\": " ++ jsonStringify c) ++ "," ++
      specSerialize (c2 :: rest)

/-- String append acts as list append on the character data. -/
theorem data_append (a b : String) : (a ++ b).data = a.data ++ b.data :=
  rfl

/-- An identity-style oracle environment: minifiers return their input
unchanged and report no error, and the YAML oracle returns a one-field
config `name: a`. -/
def envId : BuildEnv :=
  ⟨fun _ => ⟨"a", [("name", "a")]⟩, fun s => ⟨s, []⟩, fun s => ⟨s, none⟩, fun s => s⟩

/-- Environment whose CSS minifier reports exactly one error. -/
def envOneCssError : BuildEnv :=
  ⟨fun _ => ⟨"a", [("name", "a")]⟩, fun _ => ⟨"", ["bad css"]⟩, fun s => ⟨s, none⟩, fun s => s⟩

/-- Environment whose CSS minifier reports two errors. -/
def envTwoCssErrors : BuildEnv :=
  ⟨fun _ => ⟨"a", [("name", "a")]⟩, fun _ => ⟨"", ["bad css", "worse"]⟩, fun s => ⟨s, none⟩,
   fun s => s⟩

/-- A component file with all four sections present. -/
def pfPlain : ParsedFile :=
  ⟨some "name: a", some "color:", some "", some "<p></p>"⟩

/-- Claim C2 (code bug): the script tests `css.errors.length > 1`, not
`> 0`, so a style section whose CSS minification reports exactly one error
is NOT rejected: the component is processed successfully and the build
succeeds with it included; only from two reported errors on does the script
throw `css.errors[0]`. -/
theorem single_css_error_ignored :
    processComponent envOneCssError "c.html" pfPlain =
      .ok ⟨⟨"a", [("name", "a")]⟩, "", "", "<p></p>"⟩ ∧
    (globCallback envOneCssError "t" [("c.html", pfPlain)]).isOk = true ∧
    processComponent envTwoCssErrors "c.html" pfPlain = .error (.cssError "bad css") :=
  ⟨rfl, rfl, rfl⟩

/-- The component used for the C5 counterexample: its config name has an
uppercase letter. -/
def cFoo : Component :=
  ⟨⟨"Foo", [("name", "Foo")]⟩, "", "", ""⟩

/-- Claim C5, counterexample: the serialization key is the LOWERCASED
component name, not the name itself: for a component named `Foo` the entry
is keyed `"foo"`. -/
theorem serialized_key_lowercased_cex :
    cFoo.meta.name = "Foo" ∧
    serializedComponents [cFoo] = "\"foo\": " ++ jsonStringify cFoo ∧
    serializedComponents [cFoo] ≠ "\"Foo\": " ++ jsonStringify cFoo :=
  ⟨rfl, rfl, by decide⟩

/-- Claim C5, amended: all components are serialized into one lookup
structure with, for every component, the LOWERCASED metadata name as key
and the JSON record (metadata plus style, script, html) as value, entries
separated by commas in the order the component files were discovered. -/
theorem serialized_components_shape (comps : List Component) :
    serializedComponents comps = specSerialize comps := by
  induction comps with
  | nil => rfl
  | cons c rest ih =>
    cases rest with
    | nil => rfl
    | cons c2 r2 =>
      have hstep : serializedComponents (c :: c2 :: r2) =
          componentEntry c ++ "," ++ serializedComponents (c2 :: r2) := rfl
      rw [hstep, ih]
      rfl

/-- A component file where every selector comes back empty. -/
def pfAllNone : ParsedFile :=
  ⟨none, none, none, none⟩

/-- Claim C9: a missing `style` or `script` element is processed exactly
like an empty one (the source reads `querySelector(..)?.innerHTML ?? ""`),
while a missing `config` or `main` element makes the component fail (the
source dereferences the `null` returned by `querySelector`). -/
theorem missing_sections_behavior (env : BuildEnv) (f : String) (pf : ParsedFile) :
    (pf.styleEl = none →
      processComponent env f pf = processComponent env f { pf with styleEl := some "" }) ∧
    (pf.scriptEl = none →
      processComponent env f pf = processComponent env f { pf with scriptEl := some "" }) ∧
    (pf.configEl = none → processComponent env f pf = .error .nullField) ∧
    (pf.mainEl = none → ∃ e, processComponent env f pf = .error e) := by
  obtain ⟨c, s, sc, m⟩ := pf
  refine ⟨?_, ?_, ?_, ?_⟩
  · intro h
    cases h
    rfl
  · intro h
    cases h
    rfl
  · intro h
    cases h
    rfl
  · intro h
    cases h
    cases hres : processComponent env f ⟨c, s, sc, none⟩ with
    | error e => exact ⟨_, rfl⟩
    | ok comp =>
      exfalso
      simp only [processComponent] at hres
      repeat' split at hres
      all_goals simp_all

/-- Claim C9, instance at a file with no elements at all. -/
theorem missing_sections_behavior_instance :
    (processComponent envId "f.html" pfAllNone =
      processComponent envId "f.html" { pfAllNone with styleEl := some "" }) ∧
    (processComponent envId "f.html" pfAllNone =
      processComponent envId "f.html" { pfAllNone with scriptEl := some "" }) ∧
    (processComponent envId "f.html" pfAllNone = .error .nullField) ∧
    (∃ e, processComponent envId "f.html" pfAllNone = .error e) := by
  obtain ⟨h1, h2, h3, h4⟩ := missing_sections_behavior envId "f.html" pfAllNone
  exact ⟨h1 rfl, h2 rfl, h3 rfl, h4 rfl⟩

/-- When all components process successfully, each file in the list has a
successfully processed component. -/
theorem mapProcess_ok_forall (env : BuildEnv) :
    ∀ (files : List (String × ParsedFile)) (comps : List Component),
      mapProcess env files = .ok comps →
      ∀ fp ∈ files, ∃ c, processComponent env fp.1 fp.2 = .ok c := by
  intro files
  induction files with
  | nil => intro comps _ fp hfp; cases hfp
  | cons a rest ih =>
    intro comps h fp hfp
    unfold mapProcess at h
    cases hpc : processComponent env a.1 a.2 with
    | error e => rw [hpc] at h; simp at h
    | ok c =>
      rw [hpc] at h
      cases hmp : mapProcess env rest with
      | error e => rw [hmp] at h; simp at h
      | ok cs =>
        cases hfp with
        | head => exact ⟨c, hpc⟩
        | tail _ hfp2 => exact ih cs hmp fp hfp2

/-- Inversion of a successful glob callback: the components processed, the
minification succeeded, and the written artifacts are the three files built
from the minified assembled script. -/
theorem globCallback_ok_parts (env : BuildEnv) (template : String)
    (files : List (String × ParsedFile)) (ws : List (String × String))
    (h : globCallback env template files = .ok ws) :
    ∃ comps, mapProcess env files = .ok comps ∧
      ws = [("bookmarklet",
              createBookmarklet
                (env.jsMinify (assembleFullJs template (serializedComponents comps))).code),
            ("bookmarklet.html",
              bookmarkletHtmlFor
                (createBookmarklet
                  (env.jsMinify (assembleFullJs template (serializedComponents comps))).code)),
            ("canvascomponents.min.js",
              (env.jsMinify (assembleFullJs template (serializedComponents comps))).code)] := by
  simp only [globCallback] at h
  cases hmp : mapProcess env files with
  | error e => rw [hmp] at h; simp at h
  | ok comps =>
    simp only [hmp] at h
    refine ⟨comps, rfl, ?_⟩
    cases he : (env.jsMinify (assembleFullJs template (serializedComponents comps))).error with
    | some e => simp only [he] at h; cases h
    | none =>
      simp only [he] at h
      exact (Except.ok.inj h).symm

/-- Claim C1: the allow-list check.  Given a component file whose config
element is present, there is a CSS declaration (as matched by
`cssPropsRegex` on the minified style) whose property name is outside
`allowedCssProps` exactly when `processComponent` throws the corresponding
`cssProp` error, whose message contains the filename and the offending
property; when every declared property is allowed, no `cssProp` error can
arise; and a file with an offending property makes the whole build fail. -/
theorem css_allowlist_check (env : BuildEnv) (f : String) (pf : ParsedFile) (cfg : String)
    (hc : pf.configEl = some cfg) :
    ((∃ p ∈ cssPropNames (env.cssMinify (pf.styleEl.getD "")).styles, p ∉ allowedCssProps) ↔
      (∃ p, p ∈ cssPropNames (env.cssMinify (pf.styleEl.getD "")).styles ∧
        p ∉ allowedCssProps ∧
        processComponent env f pf = .error (.cssProp f p) ∧
        (∃ a b, (errorMessage (.cssProp f p)).data = a ++ f.data ++ b) ∧
        (∃ a b, (errorMessage (.cssProp f p)).data = a ++ p.data ++ b))) ∧
    ((∀ p ∈ cssPropNames (env.cssMinify (pf.styleEl.getD "")).styles, p ∈ allowedCssProps) →
      ∀ g q, processComponent env f pf ≠ .error (.cssProp g q)) ∧
    (∀ template files ws, (f, pf) ∈ files →
      (∃ p ∈ cssPropNames (env.cssMinify (pf.styleEl.getD "")).styles, p ∉ allowedCssProps) →
      globCallback env template files ≠ .ok ws) := by
  have key : ∀ p, (cssPropNames (env.cssMinify (pf.styleEl.getD "")).styles).find?
        (fun p => decide (p ∉ allowedCssProps)) = some p →
      processComponent env f pf = .error (.cssProp f p) := by
    intro p hp
    simp only [processComponent, hc]
    rw [hp]
  have errOfEx : (∃ p ∈ cssPropNames (env.cssMinify (pf.styleEl.getD "")).styles,
        p ∉ allowedCssProps) →
      ∃ p, p ∈ cssPropNames (env.cssMinify (pf.styleEl.getD "")).styles ∧
        p ∉ allowedCssProps ∧ processComponent env f pf = .error (.cssProp f p) := by
    rintro ⟨p, hmem, hnot⟩
    have hs : ((cssPropNames (env.cssMinify (pf.styleEl.getD "")).styles).find?
        (fun p => decide (p ∉ allowedCssProps))).isSome := by
      rw [List.find?_isSome]
      exact ⟨p, hmem, by simpa using hnot⟩
    obtain ⟨p0, hp0⟩ := Option.isSome_iff_exists.mp hs
    have hmem0 := List.mem_of_find?_eq_some hp0
    have hnot0 : p0 ∉ allowedCssProps := by simpa using List.find?_some hp0
    exact ⟨p0, hmem0, hnot0, key p0 hp0⟩
  refine ⟨⟨?_, ?_⟩, ?_, ?_⟩
  · intro hex
    obtain ⟨p0, hmem0, hnot0, herr⟩ := errOfEx hex
    refine ⟨p0, hmem0, hnot0, herr, ?_, ?_⟩
    · exact ⟨"\n\nError in ".data,
        (":\nCSS property \x27" ++ p0 ++
          "\x27 is not supported by Canvas. It will be automatically stripped by their sanitizer.\n").data,
        by simp [errorMessage, data_append, List.append_assoc]⟩
    · exact ⟨("\n\nError in " ++ f ++ ":\nCSS property \x27").data,
        "\x27 is not supported by Canvas. It will be automatically stripped by their sanitizer.\n".data,
        by simp [errorMessage, data_append, List.append_assoc]⟩
  · rintro ⟨p, hmem, hnot, _⟩
    exact ⟨p, hmem, hnot⟩
  · intro hall g q heq
    have hnone : (cssPropNames (env.cssMinify (pf.styleEl.getD "")).styles).find?
        (fun p => decide (p ∉ allowedCssProps)) = none := by
      rw [List.find?_eq_none]
      intro x hx
      simpa using hall x hx
    simp only [processComponent, hc] at heq
    rw [hnone] at heq
    repeat' split at heq
    all_goals simp_all
  · intro template files ws hmem hex hok
    simp only [globCallback] at hok
    cases hmp : mapProcess env files with
    | error e => rw [hmp] at hok; simp at hok
    | ok comps =>
      obtain ⟨cc, hcc⟩ := mapProcess_ok_forall env files comps hmp (f, pf) hmem
      obtain ⟨p0, _, _, herr⟩ := errOfEx hex
      rw [herr] at hcc
      cases hcc

/-- Environment whose CSS minifier produces only declarations with allowed
property names. -/
def envAllowed : BuildEnv :=
  ⟨fun _ => ⟨"a", [("name", "a")]⟩, fun _ => ⟨"color:red;", []⟩, fun s => ⟨s, none⟩, fun s => s⟩

/-- A component file with only a config and a main element. -/
def pfCfgOnly : ParsedFile :=
  ⟨some "", none, none, some ""⟩

/-- Claim C1, instance: with only allowed properties declared, no allow-list
error is raised. -/
theorem css_allowlist_check_instance :
    processComponent envAllowed "g.html" pfCfgOnly ≠ .error (.cssProp "g.html" "color") :=
  (css_allowlist_check envAllowed "g.html" pfCfgOnly "" rfl).2.1 (by decide) "g.html" "color"

/-- Claim C3: on a successful build the written artifacts are exactly the
three files `bookmarklet` (the bookmarklet URI built from the minified
assembled script), `bookmarklet.html` (the anchor snippet embedding that
URI) and `canvascomponents.min.js` (the minified assembled script). -/
theorem build_artifacts (env : BuildEnv) (template : String)
    (files : List (String × ParsedFile)) (ws : List (String × String))
    (h : globCallback env template files = .ok ws) :
    ∃ comps m, mapProcess env files = .ok comps ∧
      m = (env.jsMinify (assembleFullJs template (serializedComponents comps))).code ∧
      ws = [("bookmarklet", createBookmarklet m),
            ("bookmarklet.html", bookmarkletHtmlFor (createBookmarklet m)),
            ("canvascomponents.min.js", m)] := by
  obtain ⟨comps, h1, h2⟩ := globCallback_ok_parts env template files ws h
  exact ⟨comps, _, h1, rfl, h2⟩

/-- The artifact list of the empty build over template `"x"`. -/
def wsEmptyBuild : List (String × String) :=
  [("bookmarklet", "javascript:!function()%7Bx%7D()"),
   ("bookmarklet.html", bookmarkletHtmlFor "javascript:!function()%7Bx%7D()"),
   ("canvascomponents.min.js", "x")]

/-- Claim C3, instance: the concrete artifacts of the build with no
component files and template `"x"`. -/
theorem build_artifacts_instance :
    ∃ comps m, mapProcess envId ([] : List (String × ParsedFile)) = .ok comps ∧
      m = (envId.jsMinify (assembleFullJs "x" (serializedComponents comps))).code ∧
      wsEmptyBuild = [("bookmarklet", createBookmarklet m),
        ("bookmarklet.html", bookmarkletHtmlFor (createBookmarklet m)),
        ("canvascomponents.min.js", m)] :=
  build_artifacts envId "x" [] wsEmptyBuild rfl

/-- Claim C4: the emitted bookmarklet URI is `encodeURI` of the minified
assembled script wrapped in `javascript:!function()\x7b...\x7d()`. -/
theorem bookmarklet_encoding (env : BuildEnv) (template : String)
    (files : List (String × ParsedFile)) (ws : List (String × String))
    (h : globCallback env template files = .ok ws) :
    ∃ m, ("canvascomponents.min.js", m) ∈ ws ∧
      ("bookmarklet", encodeURI ("javascript:!function()\x7b" ++ m ++ "\x7d()")) ∈ ws := by
  obtain ⟨comps, _, h2⟩ := globCallback_ok_parts env template files ws h
  refine ⟨(env.jsMinify (assembleFullJs template (serializedComponents comps))).code, ?_, ?_⟩
  · rw [h2]; simp
  · rw [h2]; simp [createBookmarklet]

/-- The artifact list of the empty build over template `"y"`. -/
def wsEmptyBuildY : List (String × String) :=
  [("bookmarklet", "javascript:!function()%7By%7D()"),
   ("bookmarklet.html", bookmarkletHtmlFor "javascript:!function()%7By%7D()"),
   ("canvascomponents.min.js", "y")]

/-- Claim C4, instance on the empty build over template `"y"`. -/
theorem bookmarklet_encoding_instance :
    ∃ m, ("canvascomponents.min.js", m) ∈ wsEmptyBuildY ∧
      ("bookmarklet", encodeURI ("javascript:!function()\x7b" ++ m ++ "\x7d()")) ∈ wsEmptyBuildY :=
  bookmarklet_encoding envId "y" [] wsEmptyBuildY rfl

/-- Claim C8: when minification of the assembled full script fails, the
glob callback propagates that error as `minifyError` and no artifact list is
produced. -/
theorem minify_failure_no_artifacts (env : BuildEnv) (template : String)
    (files : List (String × ParsedFile)) (comps : List Component) (e : String)
    (hc : mapProcess env files = .ok comps)
    (he : (env.jsMinify (assembleFullJs template (serializedComponents comps))).error = some e) :
    globCallback env template files = .error (.minifyError e) ∧
    ∀ ws, globCallback env template files ≠ .ok ws := by
  have h1 : globCallback env template files = .error (.minifyError e) := by
    simp only [globCallback, hc]
    rw [he]
  exact ⟨h1, fun ws hw => by rw [h1] at hw; cases hw⟩

/-- Environment whose JS minifier succeeds on the empty script but fails on
any other input. -/
def envBoom : BuildEnv :=
  ⟨fun _ => ⟨"a", []⟩, fun s => ⟨s, []⟩,
   fun s => if s = "" then ⟨"", none⟩ else ⟨"", some "boom"⟩, fun s => s⟩

/-- A component file with config and main only. -/
def pfBoom : ParsedFile :=
  ⟨some "", none, none, some ""⟩

/-- Claim C8, instance: a failing full-script minification yields the
`minifyError` and no artifacts. -/
theorem minify_failure_no_artifacts_instance :
    globCallback envBoom "t" [("c.html", pfBoom)] = .error (.minifyError "boom") ∧
    globCallback envBoom "t" [("c.html", pfBoom)] ≠ .ok [] :=
  ⟨(minify_failure_no_artifacts envBoom "t" [("c.html", pfBoom)] [⟨⟨"a", []⟩, "", "", ""⟩]
      "boom" rfl rfl).1,
   (minify_failure_no_artifacts envBoom "t" [("c.html", pfBoom)] [⟨⟨"a", []⟩, "", "", ""⟩]
      "boom" rfl rfl).2 []⟩

/-- The component file used for the C7 counterexample: its main markup
carries a `transition` class. -/
def pfTransition : ParsedFile :=
  ⟨some "", some "", some "", some "<i class=\"transition\"></i>"⟩

/-- Claim C7, counterexample: the `html` field is NOT the minified markup of
the main element: for markup carrying a `transition` class the stored
`html` is the minification of the TRANSFORMED markup (`thumbnail` class),
which differs from the minified original. -/
theorem html_transform_before_minify_cex :
    processComponent envId "f.html" pfTransition =
      .ok ⟨⟨"a", [("name", "a")]⟩, "", "", "<i class=\"thumbnail\"></i>"⟩ ∧
    "<i class=\"thumbnail\"></i>" ≠ envId.htmlMinify "<i class=\"transition\"></i>" :=
  ⟨rfl, by decide⟩

/-- Claim C7, amended: a successfully processed component record carries the
YAML metadata of the config element, the minified CSS of the style section
under `style`, the minified JS of the script section under `script`, and
the minified TRANSFORMED markup (transition classes rewritten to thumbnail)
of the main element under `html`. -/
theorem process_component_sections (env : BuildEnv) (f : String) (pf : ParsedFile)
    (cfg mn : String) (comp : Component)
    (hc : pf.configEl = some cfg) (hm : pf.mainEl = some mn)
    (h : processComponent env f pf = .ok comp) :
    comp.meta = env.yamlParse cfg ∧
    comp.style = (env.cssMinify (pf.styleEl.getD "")).styles ∧
    comp.script = (env.jsMinify (pf.scriptEl.getD "")).code ∧
    comp.html = env.htmlMinify (transformHtml mn) := by
  simp only [processComponent, hc, hm] at h
  repeat' split at h
  all_goals simp_all
  subst h
  exact ⟨rfl, rfl, rfl, rfl⟩

/-- Claim C7, instance at the transition-class component. -/
theorem process_component_sections_instance :
    (⟨⟨"a", [("name", "a")]⟩, "", "", "<i class=\"thumbnail\"></i>"⟩ : Component).meta =
      envId.yamlParse "" ∧
    (⟨⟨"a", [("name", "a")]⟩, "", "", "<i class=\"thumbnail\"></i>"⟩ : Component).style =
      (envId.cssMinify (pfTransition.styleEl.getD "")).styles ∧
    (⟨⟨"a", [("name", "a")]⟩, "", "", "<i class=\"thumbnail\"></i>"⟩ : Component).script =
      (envId.jsMinify (pfTransition.scriptEl.getD "")).code ∧
    (⟨⟨"a", [("name", "a")]⟩, "", "", "<i class=\"thumbnail\"></i>"⟩ : Component).html =
      envId.htmlMinify (transformHtml "<i class=\"transition\"></i>") :=
  process_component_sections envId "f.html" pfTransition "" "<i class=\"transition\"></i>"
    ⟨⟨"a", [("name", "a")]⟩, "", "", "<i class=\"thumbnail\"></i>"⟩ rfl rfl rfl

/-- Replacement text without substitution patterns is inserted verbatim. -/
theorem getSubstitution_id (matched pre post : List Char) :
    ∀ r, hasSubstPattern r = false → getSubstitution matched pre post r = r := by
  intro r
  induction r with
  | nil => intro _; rfl
  | cons a tail ih =>
    intro h
    cases tail with
    | nil =>
      by_cases ha : a = '$'
      · subst ha; rfl
      · simp [getSubstitution, ha]
    | cons b t2 =>
      have hp : (a = '$' && (b = '$' || b = '&' || b = Char.ofNat 96 || b = Char.ofNat 39)) = false ∧
          hasSubstPattern (b :: t2) = false := by
        simpa [hasSubstPattern] using h
      by_cases ha : a = '$'
      · subst ha
        have hb : (decide (b = '$') || decide (b = '&') ||
            decide (b = Char.ofNat 96) || decide (b = Char.ofNat 39)) = false := by
          simpa using hp.1
        have hb1 : ¬b = '$' := by simp_all
        have hb2 : ¬b = '&' := by simp_all
        have hb3 : ¬b = Char.ofNat 96 := by simp_all
        have hb4 : ¬b = Char.ofNat 39 := by simp_all
        simp only [getSubstitution, if_pos rfl, if_neg hb1, if_neg hb2, if_neg hb3, if_neg hb4]
        rw [ih hp.2]
        simp
      · simp only [getSubstitution, if_neg ha]
        rw [ih hp.2]

/-- The component used for the C6 counterexample: its minified script
contains the substitution pattern `$&`. -/
def compDollar : Component :=
  ⟨⟨"A", [("name", "a")]⟩, "", "x=\"$&\"", ""⟩

/-- Claim C6, counterexample: `String.prototype.replace` interprets `$`
substitution patterns in the replacement string, so a serialized components
structure containing `$&` is NOT spliced verbatim: the `$&` becomes the
matched placeholder text and the assembled script differs from
`template-prefix ++ serialized ++ template-suffix`. -/
theorem assemble_dollar_cex :
    assembleFullJs "A/*$\x7bCANVAS_COMPONENTS\x7d*/B" (serializedComponents [compDollar]) =
      "A\"a\": \x7b\"name\":\"a\",\"style\":\"\",\"script\":\"x=\\\"/*$\x7bCANVAS_COMPONENTS\x7d*/\\\"\",\"html\":\"\"\x7dB" ∧
    assembleFullJs "A/*$\x7bCANVAS_COMPONENTS\x7d*/B" (serializedComponents [compDollar]) ≠
      "A" ++ serializedComponents [compDollar] ++ "B" :=
  ⟨rfl, by decide⟩

/-- Claim C6, amended: the assembled full script is the template with the
first occurrence of the placeholder replaced by the serialized components
structure under `String.prototype.replace` semantics; when the structure
contains no `$` substitution pattern it is spliced verbatim, and the
`canvascomponents.min.js` artifact is the minification of the assembled
script. -/
theorem assemble_splice_shape (env : BuildEnv) (template : String)
    (files : List (String × ParsedFile)) (comps : List Component)
    (pre post : List Char) (ws : List (String × String))
    (hs : findSplit canvasPlaceholder.data template.data = some (pre, post))
    (hd : hasSubstPattern (serializedComponents comps).data = false)
    (hc : mapProcess env files = .ok comps) :
    assembleFullJs template (serializedComponents comps) =
      String.mk (pre ++ (serializedComponents comps).data ++ post) ∧
    (globCallback env template files = .ok ws →
      ("canvascomponents.min.js",
        (env.jsMinify (assembleFullJs template (serializedComponents comps))).code) ∈ ws) := by
  constructor
  · unfold assembleFullJs jsReplaceFirst
    simp only [hs]
    rw [getSubstitution_id _ _ _ _ hd]
  · intro hok
    simp only [globCallback, hc] at hok
    cases he : (env.jsMinify (assembleFullJs template (serializedComponents comps))).error with
    | some e => simp only [he] at hok; cases hok
    | none =>
      simp only [he] at hok
      rw [← Except.ok.inj hok]
      simp

/-- A plain successfully processed component. -/
def compPlain : Component :=
  ⟨⟨"a", [("name", "a")]⟩, "", "", ""⟩

/-- A template consisting of the placeholder between `A` and `B`. -/
def templateAB : String :=
  "A/*$\x7bCANVAS_COMPONENTS\x7d*/B"

/-- Claim C6, instance: with a dollar-free serialized structure the splice
is verbatim. -/
theorem assemble_splice_shape_instance :
    assembleFullJs templateAB (serializedComponents [compPlain]) =
      String.mk ("A".data ++ (serializedComponents [compPlain]).data ++ "B".data) ∧
    (globCallback envId templateAB [("c.html", pfBoom)] = .ok [] →
      ("canvascomponents.min.js",
        (envId.jsMinify (assembleFullJs templateAB (serializedComponents [compPlain]))).code) ∈
        ([] : List (String × String))) :=
  assemble_splice_shape envId templateAB [("c.html", pfBoom)] [compPlain] "A".data "B".data []
    rfl (by decide) rfl

/-- A prefix is no longer than the whole list. -/
theorem isPrefixOf_length_le : ∀ (p l : List Char), p.isPrefixOf l = true → p.length ≤ l.length := by
  intro p
  induction p with
  | nil => intro l _; simp
  | cons a as ih =>
    intro l h
    cases l with
    | nil => simp [List.isPrefixOf] at h
    | cons b bs =>
      simp only [List.isPrefixOf, Bool.and_eq_true, beq_iff_eq] at h
      have := ih bs h.2
      simp only [List.length_cons]
      omega

/-- A prefix decomposes the list as itself plus a tail. -/
theorem isPrefixOf_ex_append : ∀ (p l : List Char), p.isPrefixOf l = true → ∃ t, l = p ++ t := by
  intro p
  induction p with
  | nil => intro l _; exact ⟨l, rfl⟩
  | cons a as ih =>
    intro l h
    cases l with
    | nil => simp [List.isPrefixOf] at h
    | cons b bs =>
      simp only [List.isPrefixOf, Bool.and_eq_true, beq_iff_eq] at h
      obtain ⟨t, ht⟩ := ih bs h.2
      exact ⟨t, by rw [h.1, ht]; rfl⟩

/-- Every list is a prefix of itself followed by anything. -/
theorem isPrefixOf_self_append : ∀ (p t : List Char), p.isPrefixOf (p ++ t) = true := by
  intro p t
  induction p with
  | nil => cases t <;> rfl
  | cons a as ih => simp [List.isPrefixOf, ih]

/-- Testing a prefix against an append only involves the first part when it
is long enough. -/
theorem isPrefixOf_append_left :
    ∀ (p a b : List Char), p.length ≤ a.length → p.isPrefixOf (a ++ b) = p.isPrefixOf a := by
  intro p
  induction p with
  | nil => intro a b _; cases a <;> cases b <;> rfl
  | cons x xs ih =>
    intro a b hl
    cases a with
    | nil => simp at hl
    | cons y ys =>
      show (x == y && xs.isPrefixOf (ys ++ b)) = (x == y && xs.isPrefixOf ys)
      rw [ih ys b (by simpa using hl)]

/-- A filter over a range with a nowhere-true predicate is empty. -/
theorem filter_range_eq_nil (p : Nat → Bool) (n : Nat) (h : ∀ q, q < n → p q = false) :
    (List.range n).filter p = [] := by
  rw [List.filter_eq_nil_iff]
  intro a ha
  simp [h a (List.mem_range.mp ha)]

/-- A filter over a range with a predicate true at exactly one point is that
singleton. -/
theorem filter_range_eq_singleton (p : Nat → Bool) (m : Nat) :
    ∀ (n : Nat), m < n → (∀ q, p q = true ↔ q = m) → (List.range n).filter p = [m] := by
  intro n
  induction n with
  | zero => intro h _; exact absurd h (Nat.not_lt_zero m)
  | succ k ih =>
    intro hm hp
    rw [List.range_succ, List.filter_append]
    by_cases hmk : m < k
    · rw [ih hmk hp]
      have hk : ¬(k = m) := by omega
      have hpk : p k = false := by
        have h2 := hp k
        simp only [hk, iff_false] at h2
        simpa using h2
      simp [hpk]
    · have hmk2 : m = k := by omega
      subst hmk2
      rw [filter_range_eq_nil p m (fun q hq => by
        have h2 := hp q
        have hq2 : ¬(q = m) := by omega
        simp only [hq2, iff_false] at h2
        simpa using h2)]
      simp [(hp m).mpr rfl]

/-- A quote-free list has no quote indices. -/
theorem quoteIdx_eq_nil (l : List Char) (h : ∀ c ∈ l, c ≠ '"') : quoteIdx l = [] := by
  apply filter_range_eq_nil
  intro q _
  cases hg : l[q]? with
  | none => simp [hg]
  | some c =>
    obtain ⟨hlt, rfl⟩ := List.getElem?_eq_some.mp hg
    simpa using h _ (List.getElem_mem hlt)

/-- The quote indices of `v ++ '"' :: w` with quote-free `v` and `w` is the
one position of the marked quote. -/
theorem quoteIdx_single (v w : List Char) (hv : ∀ c ∈ v, c ≠ '"') (hw : ∀ c ∈ w, c ≠ '"') :
    quoteIdx (v ++ '"' :: w) = [v.length] := by
  apply filter_range_eq_singleton
  · simp only [List.length_append, List.length_cons]
    omega
  · intro q
    rw [decide_eq_true_eq]
    constructor
    · intro hq
      by_cases h1 : q < v.length
      · rw [List.getElem?_append_left h1] at hq
        obtain ⟨hlt, heq⟩ := List.getElem?_eq_some.mp hq
        exact absurd heq (hv _ (List.getElem_mem hlt))
      · by_cases h2 : q = v.length
        · exact h2
        · rw [List.getElem?_append_right (by omega : v.length ≤ q)] at hq
          have h4 : q - v.length = (q - v.length - 1) + 1 := by omega
          rw [h4, List.getElem?_cons_succ] at hq
          obtain ⟨hlt, heq⟩ := List.getElem?_eq_some.mp hq
          exact absurd heq (hw _ (List.getElem_mem hlt))
    · rintro rfl
      rw [List.getElem?_append_right (le_refl _)]
      simp

/-- The `transition` occurrences of `v ++ '"' :: w` that are followed by a
quote are exactly the occurrences inside `v` (nothing past the closing quote
of the attribute can be matched, since `w` carries no quote). -/
theorem occ_filter_eq (v w : List Char) (hv : ∀ c ∈ v, c ≠ '"') (hw : ∀ c ∈ w, c ≠ '"') :
    (occIdx transitionLit (v ++ '"' :: w)).filter
      (fun p => (quoteIdx (v ++ '"' :: w)).any (fun q => p + 10 ≤ q)) =
    occIdx transitionLit v := by
  rw [quoteIdx_single v w hv hw]
  unfold occIdx
  rw [List.filter_filter]
  have hlen : (v ++ '"' :: w).length = v.length + (w.length + 1) := by
    simp [List.length_append]
  rw [hlen, List.range_add, List.filter_append]
  have h2 : (List.filter
      (fun p => [v.length].any (fun q => decide (p + 10 ≤ q)) &&
        transitionLit.isPrefixOf ((v ++ '"' :: w).drop p))
      (List.map (fun x => v.length + x) (List.range (w.length + 1)))) = [] := by
    rw [List.filter_eq_nil_iff]
    intro a ha
    obtain ⟨j, _, rfl⟩ := List.mem_map.mp ha
    simp only [List.any_cons, List.any_nil, Bool.or_false, Bool.and_eq_true, decide_eq_true_eq,
      not_and]
    intro h10
    omega
  rw [h2, List.append_nil]
  apply List.filter_congr
  intro p hp
  have hplt : p < v.length := List.mem_range.mp hp
  by_cases h10 : p + 10 ≤ v.length
  · have hdrop : (v ++ '"' :: w).drop p = v.drop p ++ '"' :: w := by
      rw [List.drop_append_eq_append_drop]
      have hz : p - v.length = 0 := by omega
      rw [hz]
      rfl
    rw [hdrop,
      isPrefixOf_append_left transitionLit (v.drop p) ('"' :: w)
        (by rw [List.length_drop]; have h3 : transitionLit.length = 10 := rfl; omega)]
    simp [h10]
  · have hrhs : transitionLit.isPrefixOf (v.drop p) = false := by
      cases hX : transitionLit.isPrefixOf (v.drop p) with
      | false => rfl
      | true =>
        have := isPrefixOf_length_le _ _ hX
        rw [List.length_drop] at this
        have h3 : transitionLit.length = 10 := rfl
        omega
    simp [h10, hrhs]

/-- Characters that may appear inside the markup pieces of a well-behaved
class attribute line: no quote and no ECMA-262 line terminator. -/
abbrev cleanChunk (l : List Char) : Prop :=
  ∀ c ∈ l, c ≠ '"' ∧ notNL c = true

/-- The whole attribute region is kept by `takeWhile notNL`. -/
theorem takeWhile_attr (v w : List Char) (hv : cleanChunk v) (hw : cleanChunk w) :
    (v ++ '"' :: w).takeWhile notNL = v ++ '"' :: w := by
  apply List.takeWhile_eq_self_iff.mpr
  intro c hc
  rcases List.mem_append.mp hc with h | h
  · exact (hv c h).2
  · rcases List.mem_cons.mp h with rfl | h2
    · decide
    · exact (hw c h2).2

/-- The regex matches at a `class="` anchor whose attribute value contains
`transition`: the replacement rewrites the LAST occurrence in the value. -/
theorem tryMatch_attr_some (v w : List Char) (p : Nat)
    (hv : cleanChunk v) (hw : cleanChunk w)
    (hp : (occIdx transitionLit v).getLast? = some p) :
    tryMatch (classLit ++ (v ++ '"' :: w)) =
      some (classLit ++ v.take p ++ thumbnailLit ++ v.drop (p + 10) ++ ['"'], w) := by
  have hvq : ∀ c ∈ v, c ≠ '"' := fun c hc => (hv c hc).1
  have hwq : ∀ c ∈ w, c ≠ '"' := fun c hc => (hw c hc).1
  have hpm : p ∈ occIdx transitionLit v :=
    List.mem_of_mem_getLast? (by rw [Option.mem_def]; exact hp)
  have hpm2 := hpm
  unfold occIdx at hpm2
  obtain ⟨hrange, hpref⟩ := List.mem_filter.mp hpm2
  have hplt : p < v.length := List.mem_range.mp hrange
  have h10 : p + 10 ≤ v.length := by
    have h1 := isPrefixOf_length_le _ _ hpref
    rw [List.length_drop] at h1
    have h2 : transitionLit.length = 10 := rfl
    omega
  have hdrop7 : (classLit ++ (v ++ '"' :: w)).drop 7 = v ++ '"' :: w :=
    List.drop_left' (by rfl)
  have htake : (v ++ '"' :: w).take p = v.take p := by
    rw [List.take_append_eq_append_take]
    have hz : p - v.length = 0 := by omega
    rw [hz]
    simp
  have hdt : ((v ++ '"' :: w).drop (p + 10)).take (v.length - (p + 10)) = v.drop (p + 10) := by
    rw [List.drop_append_eq_append_drop]
    have hz : p + 10 - v.length = 0 := by omega
    rw [hz]
    rw [List.take_append_eq_append_take]
    have hlen : (v.drop (p + 10)).length = v.length - (p + 10) := by
      rw [List.length_drop]
    rw [List.take_of_length_le (by omega)]
    have hz2 : v.length - (p + 10) - (v.drop (p + 10)).length = 0 := by
      rw [hlen]
      omega
    rw [hz2]
    simp
  have hrest : (classLit ++ (v ++ '"' :: w)).drop (7 + v.length + 1) = w := by
    rw [List.drop_append_eq_append_drop]
    have h7 : classLit.length = 7 := rfl
    rw [List.drop_eq_nil_of_le (by rw [h7]; omega)]
    rw [h7]
    have hz : 7 + v.length + 1 - 7 = v.length + 1 := by omega
    rw [hz]
    rw [List.drop_append_eq_append_drop]
    rw [List.drop_eq_nil_of_le (by omega)]
    have hz2 : v.length + 1 - v.length = 1 := by omega
    rw [hz2]
    rfl
  simp only [tryMatch, isPrefixOf_self_append, if_true, hdrop7, takeWhile_attr v w hv hw]
  simp only [occ_filter_eq v w hvq hwq, hp]
  simp only [quoteIdx_single v w hvq hwq]
  simp only [List.filter_cons, List.filter_nil, h10, decide_true_eq_true, if_true,
    List.getLast?_singleton]
  simp only [htake, hdt, hrest]

/-- The regex does not match at a `class="` anchor whose attribute value has
no `transition` occurrence. -/
theorem tryMatch_attr_none (v w : List Char)
    (hv : cleanChunk v) (hw : cleanChunk w)
    (hp : (occIdx transitionLit v).getLast? = none) :
    tryMatch (classLit ++ (v ++ '"' :: w)) = none := by
  have hvq : ∀ c ∈ v, c ≠ '"' := fun c hc => (hv c hc).1
  have hwq : ∀ c ∈ w, c ≠ '"' := fun c hc => (hw c hc).1
  have hdrop7 : (classLit ++ (v ++ '"' :: w)).drop 7 = v ++ '"' :: w :=
    List.drop_left' (by rfl)
  simp only [tryMatch, isPrefixOf_self_append, if_true, hdrop7, takeWhile_attr v w hv hw]
  simp only [occ_filter_eq v w hvq hwq, hp]

/-- A `class="` prefix forces a quote at index 6. -/
theorem sixth_char_of_classLit (l : List Char) (h : classLit.isPrefixOf l = true) :
    l[6]? = some '"' := by
  obtain ⟨t, rfl⟩ := isPrefixOf_ex_append _ _ h
  rw [List.getElem?_append_left (by decide : (6 : Nat) < classLit.length)]
  decide

/-- The regex cannot match where the seventh character is no quote. -/
theorem tryMatch_none_of_no_sixth_quote (l : List Char) (h : l[6]? ≠ some '"') :
    tryMatch l = none := by
  unfold tryMatch
  rw [if_neg]
  intro hpre
  exact h (sixth_char_of_classLit l hpre)

/-- The regex cannot match inside a quote-free region. -/
theorem tryMatch_none_of_no_quote (l : List Char) (h : ∀ c ∈ l, c ≠ '"') :
    tryMatch l = none := by
  apply tryMatch_none_of_no_sixth_quote
  cases hg : l[6]? with
  | none => simp
  | some c =>
    obtain ⟨hlt, rfl⟩ := List.getElem?_eq_some.mp hg
    simpa using h _ (List.getElem_mem hlt)

/-- The regex cannot match when the line after the potential anchor carries
no quote. -/
theorem tryMatch_none_of_no_quote_after (l : List Char)
    (h : quoteIdx ((l.drop 7).takeWhile notNL) = []) : tryMatch l = none := by
  by_cases hpre : classLit.isPrefixOf l = true
  · simp only [tryMatch, hpre, if_true, h]
    simp [List.filter_eq_nil_iff]
  · simp only [tryMatch, hpre]
    simp

/-- Membership in a `takeWhile` segment is membership in the whole list. -/
theorem mem_of_mem_takeWhile {p : Char → Bool} :
    ∀ (l : List Char) (c : Char), c ∈ l.takeWhile p → c ∈ l := by
  intro l
  induction l with
  | nil => intro c hc; simp at hc
  | cons a as ih =>
    intro c hc
    by_cases hp : p a = true
    · rw [List.takeWhile_cons_of_pos hp] at hc
      rcases List.mem_cons.mp hc with rfl | h2
      · exact List.mem_cons_self _ _
      · exact List.mem_cons_of_mem _ (ih c h2)
    · rw [List.takeWhile_cons_of_neg (by simpa using hp)] at hc
      cases hc

/-- The only quotes of `u ++ class=" ++ v ++ '"' ++ w` sit at the anchor's
quote and at the closing quote of the attribute. -/
theorem quote_pos (u v w : List Char) (hu : cleanChunk u) (hv : cleanChunk v) (hw : cleanChunk w) :
    ∀ j, (u ++ (classLit ++ (v ++ '"' :: w)))[j]? = some '"' →
      j = u.length + 6 ∨ j = u.length + 7 + v.length := by
  intro j hj
  by_cases h1 : j < u.length
  · rw [List.getElem?_append_left h1] at hj
    obtain ⟨hlt, heq⟩ := List.getElem?_eq_some.mp hj
    exact absurd heq (hu _ (List.getElem_mem hlt)).1
  · rw [List.getElem?_append_right (by omega : u.length ≤ j)] at hj
    have h7 : classLit.length = 7 := rfl
    by_cases h2 : j - u.length < 7
    · rw [List.getElem?_append_left (by rw [h7]; omega)] at hj
      have h6 : j - u.length = 6 := by
        revert hj
        have h2b : j - u.length < 7 := h2
        interval_cases h : (j - u.length) <;> decide
      left
      omega
    · rw [List.getElem?_append_right (by rw [h7]; omega)] at hj
      rw [h7] at hj
      by_cases h3 : j - u.length - 7 < v.length
      · rw [List.getElem?_append_left h3] at hj
        obtain ⟨hlt, heq⟩ := List.getElem?_eq_some.mp hj
        exact absurd heq (hv _ (List.getElem_mem hlt)).1
      · by_cases h4 : j - u.length - 7 = v.length
        · right
          omega
        · rw [List.getElem?_append_right (by omega : v.length ≤ j - u.length - 7)] at hj
          have h5 : j - u.length - 7 - v.length = (j - u.length - 7 - v.length - 1) + 1 := by
            omega
          rw [h5, List.getElem?_cons_succ] at hj
          obtain ⟨hlt, heq⟩ := List.getElem?_eq_some.mp hj
          exact absurd heq (hw _ (List.getElem_mem hlt)).1

/-- Away from the `class="` anchor, the regex matches nowhere in
`u ++ class=" ++ v ++ '"' ++ w`. -/
theorem noMatch_composite (u v w : List Char)
    (hu : cleanChunk u) (hv : cleanChunk v) (hw : cleanChunk w) :
    ∀ k, k < (u ++ (classLit ++ (v ++ '"' :: w))).length → k ≠ u.length →
      tryMatch ((u ++ (classLit ++ (v ++ '"' :: w))).drop k) = none := by
  intro k _ hne
  by_cases hq : (u ++ (classLit ++ (v ++ '"' :: w)))[k + 6]? = some '"'
  · rcases quote_pos u v w hu hv hw (k + 6) hq with h | h
    · exact absurd (by omega) hne
    · have hk2 : k = u.length + v.length + 1 := by omega
      apply tryMatch_none_of_no_quote_after
      have hx : u ++ (classLit ++ (v ++ '"' :: w)) = (u ++ (classLit ++ (v ++ ['"']))) ++ w := by
        simp [List.append_assoc]
      have hP : (u ++ (classLit ++ (v ++ ['"']))).length = k + 7 := by
        have h7 : classLit.length = 7 := rfl
        simp only [List.length_append, h7, List.length_cons, List.length_nil]
        omega
      have hd : ((u ++ (classLit ++ (v ++ '"' :: w))).drop k).drop 7 = w := by
        rw [List.drop_drop, hx, List.drop_left' hP]
      rw [hd]
      apply quoteIdx_eq_nil
      intro c hc
      exact (hw c (mem_of_mem_takeWhile w c hc)).1
  · apply tryMatch_none_of_no_sixth_quote
    rw [List.getElem?_drop]
    exact hq

/-- The scan of the empty text is empty at any fuel. -/
theorem scanF_nil (f : Nat) : scanF f [] = [] := by
  cases f <;> rfl

/-- The regex does not match at the end of the text. -/
theorem tryMatch_nil : tryMatch [] = none := by
  decide

/-- Scan step on a match. -/
theorem scanF_some (f : Nat) (l rep rest : List Char) (h : tryMatch l = some (rep, rest))
    (hf : 1 ≤ f) :
    scanF f l = rep ++ scanF (f - 1) rest := by
  cases l with
  | nil => rw [tryMatch_nil] at h; cases h
  | cons c cs =>
    cases f with
    | zero => omega
    | succ f2 => simp [scanF, h]

/-- Scan step on a non-match. -/
theorem scanF_none (f2 : Nat) (c : Char) (cs : List Char) (h : tryMatch (c :: cs) = none) :
    scanF (f2 + 1) (c :: cs) = c :: scanF f2 cs := by
  simp [scanF, h]

/-- Walking a region where the regex matches at none of its positions keeps
the region unchanged and continues behind it. -/
theorem scanF_append_none : ∀ (x z : List Char) (f : Nat),
    (∀ k, k < x.length → tryMatch (x.drop k ++ z) = none) →
    scanF f (x ++ z) = x ++ scanF (f - x.length) z := by
  intro x
  induction x with
  | nil => intro z f _; simp
  | cons c x2 ih =>
    intro z f H
    cases f with
    | zero =>
      cases z with
      | nil => simp [scanF_nil, scanF]
      | cons a as =>
        show scanF 0 (c :: (x2 ++ a :: as)) =
          (c :: x2) ++ scanF (0 - (c :: x2).length) (a :: as)
        simp [scanF]
    | succ f2 =>
      have h0 := H 0 (by simp)
      rw [show (c :: x2) ++ z = c :: (x2 ++ z) from rfl]
      rw [scanF_none f2 c (x2 ++ z) (by simpa using h0)]
      rw [ih z f2 (fun k hk => H (k + 1) (by simp only [List.length_cons]; omega))]
      simp [Nat.succ_sub_succ]

/-- Claim C10, amended: on markup of the shape
`u ++ class=" ++ v ++ " ++ w` where `u`, `v`, `w` contain no double quote
and no ECMA-262 line terminator, LF, CR, U+2028 and U+2029 (one
well-behaved class attribute, no other quotes),
the transformation replaces the LAST occurrence of `transition` in the
attribute value by `thumbnail` and leaves everything else unchanged; a
value without `transition` is left alone. -/
theorem transition_replace_attr (u v w : List Char)
    (hu : cleanChunk u) (hv : cleanChunk v) (hw : cleanChunk w) :
    transformHtmlL (u ++ (classLit ++ (v ++ '"' :: w))) =
      u ++ (classLit ++ (replaceLastTransition v ++ '"' :: w)) := by
  have hvq : ∀ c ∈ v, c ≠ '"' := fun c hc => (hv c hc).1
  have hwq : ∀ c ∈ w, c ≠ '"' := fun c hc => (hw c hc).1
  have hwalkU : ∀ f, scanF f (u ++ (classLit ++ (v ++ '"' :: w))) =
      u ++ scanF (f - u.length) (classLit ++ (v ++ '"' :: w)) := by
    intro f
    apply scanF_append_none
    intro k hk
    have hz : k - u.length = 0 := by omega
    have hdk : u.drop k ++ (classLit ++ (v ++ '"' :: w)) =
        (u ++ (classLit ++ (v ++ '"' :: w))).drop k := by
      rw [List.drop_append_eq_append_drop, hz]
      simp
    rw [hdk]
    apply noMatch_composite u v w hu hv hw k
    · simp only [List.length_append]
      omega
    · omega
  have hwalkW : ∀ f, scanF f w = w := by
    intro f
    have h2 : scanF f (w ++ []) = w ++ scanF (f - w.length) [] := by
      apply scanF_append_none
      intro k _
      rw [List.append_nil]
      apply tryMatch_none_of_no_quote
      intro c hc
      exact (hw c (List.drop_subset k w hc)).1
    rw [List.append_nil] at h2
    rw [h2, scanF_nil, List.append_nil]
  cases hocc : (occIdx transitionLit v).getLast? with
  | none =>
    simp only [replaceLastTransition, hocc]
    unfold transformHtmlL
    rw [hwalkU]
    have hz : ∀ f, scanF f (classLit ++ (v ++ '"' :: w)) = classLit ++ (v ++ '"' :: w) := by
      intro f
      have h2 : scanF f ((classLit ++ (v ++ '"' :: w)) ++ []) =
          (classLit ++ (v ++ '"' :: w)) ++ scanF (f - (classLit ++ (v ++ '"' :: w)).length) [] := by
        apply scanF_append_none
        intro k hk
        rw [List.append_nil]
        by_cases hk0 : k = 0
        · subst hk0
          simpa using tryMatch_attr_none v w hv hw hocc
        · have h3 := noMatch_composite [] v w (by intro c hc; cases hc) hv hw k
            (by simpa using hk) (by simpa using hk0)
          simpa using h3
      rw [List.append_nil] at h2
      rw [h2, scanF_nil, List.append_nil]
    rw [hz]
  | some p =>
    simp only [replaceLastTransition, hocc]
    unfold transformHtmlL
    rw [hwalkU]
    have hf1 : 1 ≤ (u ++ (classLit ++ (v ++ '"' :: w))).length - u.length := by
      simp only [List.length_append, List.length_cons]
      omega
    rw [scanF_some ((u ++ (classLit ++ (v ++ '"' :: w))).length - u.length)
      (classLit ++ (v ++ '"' :: w)) _ _ (tryMatch_attr_some v w p hv hw hocc) hf1]
    rw [hwalkW]
    simp [List.append_assoc]

/-- Claim C10, counterexample: on one line with two class attributes whose
values contain `transition`, the greedy line-wide regex rewrites only the
LAST one; the first attribute keeps its `transition` class, so it is false
that every such class attribute has an occurrence replaced. -/
theorem transition_replace_cex :
    transformHtml "class=\"transition\" class=\"transition\"" =
      "class=\"transition\" class=\"thumbnail\"" ∧
    transformHtml "class=\"transition\" class=\"transition\"" ≠
      "class=\"thumbnail\" class=\"thumbnail\"" :=
  ⟨rfl, by decide⟩

/-- Claim C10, instance of the amended statement on a concrete attribute. -/
theorem transition_replace_attr_instance :
    transformHtmlL ("<p ".data ++ (classLit ++ ("a transition".data ++ '"' :: " >x".data))) =
      "<p ".data ++ (classLit ++ (replaceLastTransition "a transition".data ++ '"' :: " >x".data)) :=
  transition_replace_attr "<p ".data "a transition".data " >x".data
    (by decide) (by decide) (by decide)
